import Mathlib

/-!
Verification of the StochasticParrot automated-review webhook service.

The development shallowly embeds the program's pure core: the webhook event
filter and pipeline skeleton of `handleWebhook`, the LLM request composition
of `getReview`, the two-stage response normalization (direct JSON decode of
`GiteaReviewResponse`, then the `jsonRespRegex` extraction fallback of
`llmRespCleanup`), and the banner wrapping of `postComment`.

Raw completion texts are modelled as `List Char`.  JSON decoding models the
behaviour of Go's `encoding/json.Unmarshal` for the concrete target shapes
used by the program (`GiteaReviewResponse` and its nested `GiteaComment`):
whitespace handling, string escapes including `\uXXXX` with surrogate pairs,
number literal syntax, case-insensitive field-name matching, unknown fields
ignored, `null` leaving the target untouched, and type mismatches reported
as errors.  Case folding is modelled at the ASCII level, which agrees with
Go on every character the program's patterns and tags contain.
-/

/-- Left brace character, written numerically. -/
def lbrace : Char := Char.ofNat 123

/-- Right brace character, written numerically. -/
def rbrace : Char := Char.ofNat 125

/-- Backtick character, written numerically. -/
def tick : Char := Char.ofNat 96

/-- ASCII lower-casing on code points, used to model case-insensitive
matching (`(?i)` in `jsonRespRegex`, `strings.EqualFold`, and
`encoding/json`'s field-name folding) on the ASCII alphabet. -/
def lowerAsciiNat (n : Nat) : Nat := if 65 ≤ n ∧ n ≤ 90 then n + 32 else n

/-- Case-insensitive character comparison (ASCII fold). -/
def ciEqChar (a b : Char) : Bool := lowerAsciiNat a.toNat == lowerAsciiNat b.toNat

/-- Case-insensitive list comparison, models `strings.EqualFold` (ASCII). -/
def ciEqList : List Char → List Char → Bool
  | [], [] => true
  | a :: as, b :: bs => ciEqChar a b && ciEqList as bs
  | _, _ => false

/-- Case-insensitive comparison of Go strings, models `strings.EqualFold`
restricted to ASCII content. -/
def eqFold (a b : String) : Bool := ciEqList a.data b.data

/-- JSON whitespace as accepted by Go's `encoding/json` scanner:
space, tab, carriage return, newline. -/
def jsonWs (c : Char) : Bool := c = ' ' || c = '\t' || c = '\r' || c = '\n'

/-- Drop leading JSON whitespace. -/
def skipJsonWs (cs : List Char) : List Char := cs.dropWhile jsonWs

/-- JSON values as produced by parsing; numbers keep their literal parts
(sign, integer digits, optional fraction digits, optional exponent) because
Go decodes a number into an `int` field from its literal text. -/
inductive JVal where
  | null : JVal
  | jbool : Bool → JVal
  | jnum : Bool → List Char → Option (List Char) → Option (Bool × List Char) → JVal
  | jstr : List Char → JVal
  | jarr : List JVal → JVal
  | jobj : List (List Char × JVal) → JVal

/-- Numeric value of a hex digit, as `encoding/json`'s `getu4` accepts. -/
def hexDigit (c : Char) : Option Nat :=
  if '0' ≤ c ∧ c ≤ '9' then some (c.toNat - 48)
  else if 'a' ≤ c ∧ c ≤ 'f' then some (c.toNat - 87)
  else if 'A' ≤ c ∧ c ≤ 'F' then some (c.toNat - 55)
  else none

/-- Value of four hex digits. -/
def hex4 (a b c d : Char) : Option Nat := do
  let x ← hexDigit a
  let y ← hexDigit b
  let z ← hexDigit c
  let w ← hexDigit d
  pure (x * 4096 + y * 256 + z * 16 + w)

/-- Unicode replacement character, which Go writes for lone surrogates. -/
def replChar : Char := Char.ofNat 0xFFFD

/-- Body of a JSON string after the opening quote, modelling
`encoding/json`'s `unquoteBytes`: plain characters (control characters
below 0x20 rejected), simple escapes, and `\uXXXX` with surrogate-pair
combination and replacement-character fallback. Returns the decoded
content and the input remaining after the closing quote. -/
def parseStrBodyF : Nat → List Char → Option (List Char × List Char)
  | 0, _ => none
  | Nat.succ _, [] => none
  | Nat.succ fuel, c :: r =>
    if c = '"' then some ([], r)
    else if c = '\\' then
      match r with
      | [] => none
      | e :: r2 =>
        if e = '"' then (parseStrBodyF fuel r2).map (fun p => ('"' :: p.1, p.2))
        else if e = '\\' then (parseStrBodyF fuel r2).map (fun p => ('\\' :: p.1, p.2))
        else if e = '/' then (parseStrBodyF fuel r2).map (fun p => ('/' :: p.1, p.2))
        else if e = 'b' then (parseStrBodyF fuel r2).map (fun p => (Char.ofNat 8 :: p.1, p.2))
        else if e = 'f' then (parseStrBodyF fuel r2).map (fun p => (Char.ofNat 12 :: p.1, p.2))
        else if e = 'n' then (parseStrBodyF fuel r2).map (fun p => ('\n' :: p.1, p.2))
        else if e = 'r' then (parseStrBodyF fuel r2).map (fun p => ('\r' :: p.1, p.2))
        else if e = 't' then (parseStrBodyF fuel r2).map (fun p => ('\t' :: p.1, p.2))
        else if e = 'u' then
          match r2 with
          | h1 :: h2 :: h3 :: h4 :: r3 =>
            match hex4 h1 h2 h3 h4 with
            | none => none
            | some n =>
              if 0xD800 ≤ n ∧ n ≤ 0xDBFF then
                match r3 with
                | b1 :: b2 :: g1 :: g2 :: g3 :: g4 :: r4 =>
                  if b1 = '\\' ∧ b2 = 'u' then
                    match hex4 g1 g2 g3 g4 with
                    | some m =>
                      if 0xDC00 ≤ m ∧ m ≤ 0xDFFF then
                        (parseStrBodyF fuel r4).map (fun p =>
                          (Char.ofNat (0x10000 + (n - 0xD800) * 1024 + (m - 0xDC00)) :: p.1, p.2))
                      else (parseStrBodyF fuel r3).map (fun p => (replChar :: p.1, p.2))
                    | none => (parseStrBodyF fuel r3).map (fun p => (replChar :: p.1, p.2))
                  else (parseStrBodyF fuel r3).map (fun p => (replChar :: p.1, p.2))
                | _ => (parseStrBodyF fuel r3).map (fun p => (replChar :: p.1, p.2))
              else if 0xDC00 ≤ n ∧ n ≤ 0xDFFF then
                (parseStrBodyF fuel r3).map (fun p => (replChar :: p.1, p.2))
              else (parseStrBodyF fuel r3).map (fun p => (Char.ofNat n :: p.1, p.2))
          | _ => none
        else none
    else if c.toNat < 32 then none
    else (parseStrBodyF fuel r).map (fun p => (c :: p.1, p.2))

/-- String body parse with enough fuel for the whole input (every step of
`parseStrBodyF` consumes at least one character). -/
def parseStrBody (cs : List Char) : Option (List Char × List Char) :=
  parseStrBodyF (cs.length + 1) cs

/-- Decimal digit test. -/
def isDigit (c : Char) : Bool := '0' ≤ c && c ≤ '9'

/-- JSON number literal after the optional sign and leading digits have
been identified: reads fraction and exponent parts. -/
def parseNumTail (neg : Bool) (ds : List Char) (rest : List Char) :
    Option (JVal × List Char) :=
  let (frac, rest1) :=
    match rest with
    | '.' :: r2 =>
      let fs := r2.takeWhile isDigit
      (if fs = [] then none else some fs, if fs = [] then rest else r2.dropWhile isDigit)
    | _ => (none, rest)
  if (match rest, frac with
      | '.' :: _, none => true
      | _, _ => false) then none
  else
    match rest1 with
    | e :: r2 =>
      if e = 'e' ∨ e = 'E' then
        let (esign, r3) :=
          match r2 with
          | '+' :: r4 => (false, r4)
          | '-' :: r4 => (true, r4)
          | _ => (false, r2)
        let es := r3.takeWhile isDigit
        if es = [] then none
        else some (JVal.jnum neg ds frac (some (esign, es)), r3.dropWhile isDigit)
      else some (JVal.jnum neg ds frac none, rest1)
    | [] => some (JVal.jnum neg ds frac none, rest1)

/-- JSON number literal, per the JSON grammar Go's scanner enforces:
optional minus, then `0` or a nonzero-led digit run, optional fraction,
optional exponent. -/
def parseNum (cs : List Char) : Option (JVal × List Char) :=
  let (neg, cs1) :=
    match cs with
    | '-' :: r => (true, r)
    | _ => (false, cs)
  match cs1 with
  | '0' :: r => parseNumTail neg ['0'] r
  | c :: _ =>
    if isDigit c ∧ c ≠ '0' then
      parseNumTail neg (cs1.takeWhile isDigit) (cs1.dropWhile isDigit)
    else none
  | [] => none

mutual

/-- JSON value parser (fuelled recursive descent), modelling the grammar
accepted by `encoding/json`. Returns the value and the remaining input. -/
def parseVal : Nat → List Char → Option (JVal × List Char)
  | 0, _ => none
  | Nat.succ fuel, cs =>
    match skipJsonWs cs with
    | 'n' :: 'u' :: 'l' :: 'l' :: r => some (JVal.null, r)
    | 't' :: 'r' :: 'u' :: 'e' :: r => some (JVal.jbool true, r)
    | 'f' :: 'a' :: 'l' :: 's' :: 'e' :: r => some (JVal.jbool false, r)
    | '"' :: r => (parseStrBody r).map (fun p => (JVal.jstr p.1, p.2))
    | '[' :: r =>
      (match skipJsonWs r with
       | c2 :: r2 =>
         if c2 = ']' then some (JVal.jarr [], r2)
         else (parseElems fuel (c2 :: r2)).map (fun p => (JVal.jarr p.1, p.2))
       | [] => none)
    | c :: r =>
      if c = lbrace then
        (match skipJsonWs r with
         | c2 :: r2 =>
           if c2 = rbrace then some (JVal.jobj [], r2)
           else (parseMembers fuel (c2 :: r2)).map (fun p => (JVal.jobj p.1, p.2))
         | [] => none)
      else parseNum (c :: r)
    | [] => none

/-- Comma-separated array elements up to the closing bracket. -/
def parseElems : Nat → List Char → Option (List JVal × List Char)
  | 0, _ => none
  | Nat.succ fuel, cs =>
    match parseVal fuel cs with
    | none => none
    | some (v, rest) =>
      match skipJsonWs rest with
      | c :: r2 =>
        if c = ',' then (parseElems fuel r2).map (fun p => (v :: p.1, p.2))
        else if c = ']' then some ([v], r2)
        else none
      | [] => none

/-- Comma-separated object members up to the closing brace. -/
def parseMembers : Nat → List Char → Option (List (List Char × JVal) × List Char)
  | 0, _ => none
  | Nat.succ fuel, cs =>
    match skipJsonWs cs with
    | '"' :: r =>
      (match parseStrBody r with
       | none => none
       | some (k, rest) =>
         match skipJsonWs rest with
         | ':' :: r2 =>
           (match parseVal fuel r2 with
            | none => none
            | some (v, rest2) =>
              match skipJsonWs rest2 with
              | c :: r3 =>
                if c = ',' then (parseMembers fuel r3).map (fun p => ((k, v) :: p.1, p.2))
                else if c = rbrace then some ([(k, v)], r3)
                else none
              | [] => none)
         | _ => none)
    | _ => none

end

/-- Parse a complete JSON text: one value with only trailing whitespace
allowed, as `json.Unmarshal` requires. -/
def parseTop (cs : List Char) : Option JVal :=
  match parseVal (2 * cs.length + 2) cs with
  | some (v, rest) => if skipJsonWs rest = [] then some v else none
  | none => none

/-- Key of the `body` field. -/
def bodyKey : List Char := "body".data

/-- Key of the `comments` field. -/
def commentsKey : List Char := "comments".data

/-- Key of the `event` field. -/
def eventKey : List Char := "event".data

/-- Key of the `new_position` field. -/
def newPosKey : List Char := "new_position".data

/-- Key of the `old_position` field. -/
def oldPosKey : List Char := "old_position".data

/-- Key of the `path` field. -/
def pathKey : List Char := "path".data

/-- Does a JSON object key select the struct field with the given tag?
Models `encoding/json`'s field matching: exact or case-insensitive. -/
def keyIs (k tag : List Char) : Bool := ciEqList k tag

/-- GiteaComment represents a line specific comment in a review
(struct from the source, JSON tags body/new_position/old_position/path). -/
structure GiteaComment where
  body : List Char
  commentPositionNew : Int
  commentPositionOld : Int
  path : List Char
deriving DecidableEq

/-- GiteaReviewResponse represents a review to be posted on Gitea
(struct from the source, JSON tags body/comments/event). -/
structure GiteaReviewResponse where
  body : List Char
  comments : List GiteaComment
  reviewState : List Char
deriving DecidableEq

/-- Zero value of `GiteaComment`, as Go initialises it. -/
def zeroComment : GiteaComment := ⟨[], 0, 0, []⟩

/-- Zero value of `GiteaReviewResponse`, as Go initialises it. -/
def zeroReview : GiteaReviewResponse := ⟨[], [], []⟩

/-- Decode a JSON value into a Go `string` field holding `cur`:
strings overwrite, `null` is a no-op, anything else is a type error. -/
def decodeStrField (v : JVal) (cur : List Char) : Option (List Char) :=
  match v with
  | JVal.jstr s => some s
  | JVal.null => some cur
  | _ => none

/-- Signed decimal value of a digit run. -/
def digitsToNat (ds : List Char) : Nat := ds.foldl (fun a c => a * 10 + (c.toNat - 48)) 0

/-- Decode a JSON value into a Go `int` field holding `cur`: Go parses the
literal with `strconv.ParseInt`, so fraction or exponent parts are type
errors, and the value must fit in `int64`; `null` is a no-op. -/
def decodeIntField (v : JVal) (cur : Int) : Option Int :=
  match v with
  | JVal.jnum neg ds none none =>
    let n := digitsToNat ds
    if neg then (if n ≤ 9223372036854775808 then some (-(n : Int)) else none)
    else (if n ≤ 9223372036854775807 then some (n : Int) else none)
  | JVal.null => some cur
  | _ => none

/-- Fold the members of a JSON object into a `GiteaComment`, matching keys
against the struct tags in source order and ignoring unknown keys, as
`encoding/json.Unmarshal` does. -/
def foldCommentFields : GiteaComment → List (List Char × JVal) → Option GiteaComment
  | acc, [] => some acc
  | acc, (k, v) :: rest =>
    if keyIs k bodyKey then
      (decodeStrField v acc.body).bind (fun s => foldCommentFields { acc with body := s } rest)
    else if keyIs k newPosKey then
      (decodeIntField v acc.commentPositionNew).bind
        (fun n => foldCommentFields { acc with commentPositionNew := n } rest)
    else if keyIs k oldPosKey then
      (decodeIntField v acc.commentPositionOld).bind
        (fun n => foldCommentFields { acc with commentPositionOld := n } rest)
    else if keyIs k pathKey then
      (decodeStrField v acc.path).bind (fun s => foldCommentFields { acc with path := s } rest)
    else foldCommentFields acc rest

/-- Decode a JSON value into a `GiteaComment` array element: objects fold
field by field, `null` leaves the zero element, others are type errors. -/
def decodeComment (v : JVal) : Option GiteaComment :=
  match v with
  | JVal.null => some zeroComment
  | JVal.jobj fs => foldCommentFields zeroComment fs
  | _ => none

/-- Decode a JSON value into the `comments` slice field: arrays decode
element-wise into fresh zero elements, `null` is a no-op. -/
def decodeCommentsField (v : JVal) (cur : List GiteaComment) : Option (List GiteaComment) :=
  match v with
  | JVal.null => some cur
  | JVal.jarr xs => xs.mapM decodeComment
  | _ => none

/-- Fold the members of a JSON object into a `GiteaReviewResponse`. -/
def foldReviewFields : GiteaReviewResponse → List (List Char × JVal) → Option GiteaReviewResponse
  | acc, [] => some acc
  | acc, (k, v) :: rest =>
    if keyIs k bodyKey then
      (decodeStrField v acc.body).bind (fun s => foldReviewFields { acc with body := s } rest)
    else if keyIs k commentsKey then
      (decodeCommentsField v acc.comments).bind
        (fun xs => foldReviewFields { acc with comments := xs } rest)
    else if keyIs k eventKey then
      (decodeStrField v acc.reviewState).bind
        (fun s => foldReviewFields { acc with reviewState := s } rest)
    else foldReviewFields acc rest

/-- Decode a parsed JSON value into a `GiteaReviewResponse`: `null` leaves
the zero struct (Go treats a top-level `null` as a no-op), objects fold
member-wise, anything else is a type error. -/
def decodeReviewVal (v : JVal) : Option GiteaReviewResponse :=
  match v with
  | JVal.null => some zeroReview
  | JVal.jobj fs => foldReviewFields zeroReview fs
  | _ => none

/-- Stage-1 direct decode: `json.Unmarshal(text, &GiteaReviewResponse{})`.
`none` models a non-nil error. -/
def decodeReviewChars (cs : List Char) : Option GiteaReviewResponse :=
  (parseTop cs).bind decodeReviewVal

/-- Regexp whitespace class `[\s]` of Go's regexp package:
tab, newline, form feed, carriage return, space. -/
def isWsRe (c : Char) : Bool :=
  c = ' ' || c = '\t' || c = '\n' || c = '\r' || c = Char.ofNat 12

/-- Drop leading regexp whitespace (the greedy `[\s]*`). -/
def dropWsRe (cs : List Char) : List Char := cs.dropWhile isWsRe

/-- Case-insensitively consume a pattern from the front of the input,
returning the consumed original characters and the remainder. -/
def takeCi : List Char → List Char → Option (List Char × List Char)
  | [], cs => some ([], cs)
  | _ :: _, [] => none
  | p :: ps, c :: cs =>
    if ciEqChar p c then (takeCi ps cs).map (fun q => (c :: q.1, q.2)) else none

/-- Literal pattern of the capture-group anchor of `jsonRespRegex`: the
quoted key plus colon that must follow the opening brace and whitespace. -/
def bodyAnchorPat : List Char := "\"body\":".data

/-- Match the start of `jsonRespRegex`'s capture group at the head of the
input: an opening brace, regexp whitespace, then the case-insensitive
`"body":` anchor. Returns the consumed characters and the remainder. -/
def matchAnchor (cs : List Char) : Option (List Char × List Char) :=
  match cs with
  | c :: t =>
    if c = lbrace then
      (takeCi bodyAnchorPat (t.dropWhile isWsRe)).map
        (fun q => (c :: (t.takeWhile isWsRe ++ q.1), q.2))
    else none
  | [] => none

/-- Find the leftmost suffix where the capture-group anchor matches. -/
def scanAnchor : List Char → Option (List Char × List Char)
  | [] => none
  | c :: cs =>
    match matchAnchor (c :: cs) with
    | some q => some q
    | none => scanAnchor cs

/-- Whether the input contains a `{`-whitespace-`"body":` anchor anywhere,
the precondition for `jsonRespRegex`'s capture group to match at all. -/
def hasBodyAnchor (cs : List Char) : Bool := (scanAnchor cs).isSome

/-- Cut the input after its last closing brace (the greedy `[\w\W]*}` of
the capture group runs to the final `}` of the text); `none` when no
closing brace remains. -/
def truncThroughLastBrace (cs : List Char) : Option (List Char) :=
  match cs.reverse.dropWhile (fun c => c != rbrace) with
  | [] => none
  | l => some l.reverse

/-- Capture of `jsonRespRegex` for a match attempt whose anchor search
starts at the given suffix: leftmost anchor, then greedily through the
last closing brace of the remaining text. -/
def generalCapture (w : List Char) : Option (List Char) :=
  match scanAnchor w with
  | some (anch, rest) => (truncThroughLastBrace rest).map (fun r => anch ++ r)
  | none => none

/-- Consume the optional case-insensitive `json` tag after the opening
fence (the inner greedy `(?:json)?`; when the tag matches but the rest of
the attempt fails, retrying without the tag lands on a letter and cannot
anchor, so consuming it greedily loses no match). -/
def fenceTagSkip (rest : List Char) : List Char :=
  match takeCi ("json".data) rest with
  | some q => q.2
  | none => rest

/-- Continuation of the position-zero attempt after the three backticks:
optional tag, whitespace, then the anchored group through the last closing
brace. -/
def specialTail (rest : List Char) : Option (List Char) :=
  match matchAnchor (dropWsRe (fenceTagSkip rest)) with
  | some (anch, r) => (truncThroughLastBrace r).map (fun t => anch ++ t)
  | none => none

/-- Capture of `jsonRespRegex` for the match attempt at position zero that
consumes the optional leading fence `` ```json ``/`` ``` `` (the `(?:^...)?`
part), whitespace, then the anchored group. -/
def specialCapture (w : List Char) : Option (List Char) :=
  match w with
  | c1 :: c2 :: c3 :: rest =>
    if c1 = tick ∧ c2 = tick ∧ c3 = tick then specialTail rest
    else none
  | _ => none

/-- Group 1 of `jsonRespRegex.FindStringSubmatch` under Go's leftmost-first
match semantics: the position-zero attempt with the optional fence is
preferred, otherwise the leftmost anchored attempt; the trailing optional
fence of the pattern never constrains the capture. -/
def jsonRespRegexCapture (w : List Char) : Option (List Char) :=
  match specialCapture w with
  | some c => some c
  | none => generalCapture w

/-- Failure modes of response normalization in `getReview`/`llmRespCleanup`. -/
inductive NormError where
  | extraction : NormError
  | cleanedParse : NormError
deriving DecidableEq

/-- Result of normalization, modelling the `(*GiteaReviewResponse, error)`
pair returned by the Go functions. -/
inductive NormResult where
  | ok : GiteaReviewResponse → NormResult
  | err : NormError → NormResult
deriving DecidableEq

/-- Stage-2 fallback `llmRespCleanup`: run `jsonRespRegex` over the raw
completion; no match is the "failed to extract json from LLM response"
error, otherwise the captured text is unmarshalled, a failure there being
the "failed to unmarshal cleaned json" error. -/
def llmRespCleanup (resp : List Char) : NormResult :=
  match jsonRespRegexCapture resp with
  | none => NormResult.err NormError.extraction
  | some m =>
    match decodeReviewChars m with
    | some rr => NormResult.ok rr
    | none => NormResult.err NormError.cleanedParse

/-- Normalization as performed in `getReview` on the completion content:
direct unmarshal first, `llmRespCleanup` on failure. -/
def normalizeCompletion (content : List Char) : NormResult :=
  match decodeReviewChars content with
  | some rr => NormResult.ok rr
  | none => llmRespCleanup content

/-- Wrap an object text in the markdown fence of the specification's
round-trip property: a ```` ```json ```` opening fence, the text on its own
line, and a closing fence. -/
def fenceWrap (s : List Char) : List Char := "```json\n".data ++ s ++ "\n```".data

/-- GiteaReviewer entry of the webhook payload. -/
structure GiteaReviewer where
  username : String
deriving DecidableEq

/-- Pull-request portion of the webhook payload (the fields the program
reads). -/
structure PayloadPullRequest where
  number : Int
  title : String
  requestedReviewers : List GiteaReviewer
deriving DecidableEq

/-- GiteaWebhookPayload: the decoded inbound webhook body, restricted to
the fields `handleWebhook` consumes. An absent `requested_reviewer` object
deserializes to the zero `GiteaReviewer`, whose username is the empty
string. -/
structure GiteaWebhookPayload where
  action : String
  pullRequest : PayloadPullRequest
  repositoryURL : String
  requestedReviewer : GiteaReviewer
deriving DecidableEq

/-- ParrotConfig after `loadConfig` has succeeded: every pointer field is
non-nil, so the fields are plain values. The sampling temperature is
modelled as a rational; no arithmetic is performed on it. -/
structure ParrotConfig where
  giteaToken : String
  llmEndpoint : String
  llmToken : String
  systemPrompt : String
  userPrompt : String
  insecureSkipVerify : Bool
  port : Int
  llmTimeout : Int
  giteaUsername : String
  model : String
  temperature : ℚ

/-- Default `gitea_username` installed by `loadConfig` when the YAML file
does not set the option (`cmp.Or(tempConfig.GiteaUsername, &""...)`). -/
def loadedGiteaUsername (yamlValue : Option String) : String := yamlValue.getD ("")

/-- Default sampling temperature installed by `loadConfig` when the YAML
file does not set the option (`cmp.Or(tempConfig.Temperature,
&defaultTemperature...)` with `defaultTemperature = 0.7`). -/
def loadedTemperature (yamlValue : Option ℚ) : ℚ := yamlValue.getD (7 / 10)

/-- Reviewer-match test of `handleWebhook`: the configured username is
compared with `strings.EqualFold` against every entry of the per-PR
`requested_reviewers` list and against the top-level `requested_reviewer`
field. -/
def isOurUserRequested (p : GiteaWebhookPayload) (username : String) : Bool :=
  p.pullRequest.requestedReviewers.any (fun r => eqFold r.username username)
    || eqFold p.requestedReviewer.username username

/-- Decision of `handleWebhook` after the action check: proceed when the
bot user is requested or the configured username is the `*` wildcard
(the negation of `!isOurUserRequested && *config.GiteaUsername != "*"`). -/
def shouldProcess (p : GiteaWebhookPayload) (username : String) : Bool :=
  isOurUserRequested p username || username == "*"

/-- GiteaPRDetails: the pull-request context fetched before composing the
prompt. -/
structure GiteaPRDetails where
  title : String
  description : String
  diff : String

/-- Message of the LLM chat request. -/
structure Message where
  role : String
  content : String

/-- LLMFormat: the structured-output constraint attached to the request. -/
structure LLMFormat where
  formatType : String
  strict : Bool
  schema : String

/-- LLMRequest: the JSON body POSTed to the LLM endpoint. -/
structure LLMRequest where
  model : String
  messages : List Message
  temperature : ℚ
  maxTokens : Int
  format : LLMFormat

/-- Substitution of `%s` verbs in a format string, in order, modelling
`fmt.Sprintf` for the `%s`-only format strings the program uses. -/
def sprintfS : List Char → List (List Char) → List Char
  | [], _ => []
  | '%' :: 's' :: rest, a :: as => a ++ sprintfS rest as
  | '%' :: 's' :: rest, [] => "%!s(MISSING)".data ++ sprintfS rest []
  | c :: rest, as => c :: sprintfS rest as

/-- Three-argument `fmt.Sprintf` on `%s` verbs, as `getReview` uses to
interpolate title, description and diff into the user prompt. -/
def sprintf3 (fmtStr a b c : String) : String :=
  String.mk (sprintfS fmtStr.data [a.data, b.data, c.data])

/-- Literal output schema attached to every LLM request by `getReview`
(the raw-string `Schema` field of the composed `LLMFormat`). -/
def llmFormatSchema : String :=
  "\x7b\n  \"body\": \"string\",\n  \"comments\": [\n    \x7b\n      \"body\": \"string\",\n      \"new_position\": 0,\n      \"path\": \"string\"\n    \x7d\n  ],\n  \"event\": \"string\"\n\x7d"

/-- Request composition of `getReview`: fixed system message from the
configuration, user message interpolated from the PR details, hardcoded
temperature 0.7 and token budget 2000, and the fixed format schema. -/
def buildLLMRequest (cfg : ParrotConfig) (pr : GiteaPRDetails) : LLMRequest :=
  { model := cfg.model
  , messages :=
      [ { role := "system", content := cfg.systemPrompt }
      , { role := "user"
        , content := sprintf3 cfg.userPrompt pr.title pr.description pr.diff } ]
  , temperature := 7 / 10
  , maxTokens := 2000
  , format := { formatType := "json_schema", strict := true, schema := llmFormatSchema } }

/-- Banner wrapping applied by `postComment` before publishing: the fixed
header line and the generated-review disclaimer around the verdict body. -/
def reviewBannerWrap (body : List Char) : List Char :=
  "## Automated Code Review\n\n".data ++ body
    ++ "\n\n*This review was automatically generated by the code review bot.*\n\n".data

/-- Review record marshalled by `postComment`: the body is replaced by its
banner-wrapped form, the other fields are kept. -/
def postCommentPayload (review : GiteaReviewResponse) : GiteaReviewResponse :=
  { review with body := reviewBannerWrap review.body }

/-- Integer as a JSON number value, as `json.Marshal` renders `int`. -/
def jnumOfInt (i : Int) : JVal :=
  if i < 0 then JVal.jnum true (Nat.toDigits 10 (-i).toNat) none none
  else JVal.jnum false (Nat.toDigits 10 i.toNat) none none

/-- Marshalling of a `GiteaComment`, field order as in the struct. -/
def encodeComment (c : GiteaComment) : JVal :=
  JVal.jobj
    [ (bodyKey, JVal.jstr c.body)
    , (newPosKey, jnumOfInt c.commentPositionNew)
    , (oldPosKey, jnumOfInt c.commentPositionOld)
    , (pathKey, JVal.jstr c.path) ]

/-- Marshalling of a `GiteaReviewResponse`, field order as in the struct. -/
def encodeReview (r : GiteaReviewResponse) : JVal :=
  JVal.jobj
    [ (bodyKey, JVal.jstr r.body)
    , (commentsKey, JVal.jarr (r.comments.map encodeComment))
    , (eventKey, JVal.jstr r.reviewState) ]

/-- Lookup of an object member by key (exact), for stating properties of
marshalled values. -/
def jlookup (k : List Char) : JVal → Option JVal
  | JVal.jobj fs => (fs.find? (fun kv => kv.1 == k)).map (fun kv => kv.2)
  | _ => none

/-- Keys of an object value, in order. -/
def objKeys : JVal → List (List Char)
  | JVal.jobj fs => fs.map (fun kv => kv.1)
  | _ => []

/-- Kind tag of a JSON value, for stating schema-shape properties without
comparing whole values. -/
def jkind : JVal → Nat
  | JVal.null => 0
  | JVal.jbool _ => 1
  | JVal.jnum _ _ _ _ => 2
  | JVal.jstr _ => 3
  | JVal.jarr _ => 4
  | JVal.jobj _ => 5

/-- Outbound calls the webhook handler can make, in pipeline order. -/
inductive OutboundCall where
  | fetchPRMeta : OutboundCall
  | fetchDiff : OutboundCall
  | llmCompletion : OutboundCall
  | publishReview : OutboundCall
deriving DecidableEq

/-- Outcome of one webhook delivery: an HTTP response (status plus the
outbound calls made), or the `log.Fatal` exit on missing configuration. -/
inductive HandlerOutcome where
  | response : Nat → List OutboundCall → HandlerOutcome
  | fatalExit : HandlerOutcome
deriving DecidableEq

/-- Results of the external calls a pipeline run would observe: the PR
metadata fetch, the diff fetch, the LLM call (its first choice's content on
success), and the review publish. -/
structure PipelineEnv where
  metaResp : Option GiteaPRDetails
  diffResp : Option String
  llmResp : Option (List Char)
  postResp : Option Unit

/-- Action tag that triggers processing. -/
def reviewRequestedAction : String := "review_requested"

/-- The `handleWebhook` control flow after the request body has been read
and decoded: the action filter, the reviewer filter, the required-settings
check, then the fetch → review → post pipeline, each stage attempted once
and any failure answering 500. Rejections answer 200 with no outbound
calls. -/
def handleWebhook (cfg : ParrotConfig) (p : GiteaWebhookPayload)
    (env : PipelineEnv) : HandlerOutcome :=
  if eqFold p.action reviewRequestedAction = false then HandlerOutcome.response 200 []
  else if shouldProcess p cfg.giteaUsername = false then HandlerOutcome.response 200 []
  else if cfg.giteaToken = "" || cfg.llmToken = "" || cfg.llmEndpoint = "" then
    HandlerOutcome.fatalExit
  else
    match env.metaResp with
    | none => HandlerOutcome.response 500 [OutboundCall.fetchPRMeta]
    | some _ =>
      match env.diffResp with
      | none =>
        HandlerOutcome.response 500 [OutboundCall.fetchPRMeta, OutboundCall.fetchDiff]
      | some _ =>
        match env.llmResp with
        | none =>
          HandlerOutcome.response 500
            [OutboundCall.fetchPRMeta, OutboundCall.fetchDiff, OutboundCall.llmCompletion]
        | some content =>
          match normalizeCompletion content with
          | NormResult.err _ =>
            HandlerOutcome.response 500
              [OutboundCall.fetchPRMeta, OutboundCall.fetchDiff, OutboundCall.llmCompletion]
          | NormResult.ok _ =>
            match env.postResp with
            | none =>
              HandlerOutcome.response 500
                [OutboundCall.fetchPRMeta, OutboundCall.fetchDiff,
                 OutboundCall.llmCompletion, OutboundCall.publishReview]
            | some _ =>
              HandlerOutcome.response 200
                [OutboundCall.fetchPRMeta, OutboundCall.fetchDiff,
                 OutboundCall.llmCompletion, OutboundCall.publishReview]

/-- Keys of the single comment element declared inside a schema text's
`comments` array, when the text parses to that shape. -/
def commentElemKeys (schema : List Char) : Option (List (List Char)) :=
  ((parseTop schema).bind (jlookup commentsKey)).bind (fun v =>
    match v with
    | JVal.jarr [e] => some (objKeys e)
    | _ => none)

/-- C2: for every event whose action case-insensitively equals
review_requested, the event filter accepts exactly when the configured
username is the `*` wildcard, or case-insensitively matches an entry of the
per-PR requested-reviewers list, or case-insensitively matches the
top-level requested-reviewer field; otherwise it rejects. -/
theorem claim_C2_event_filter (p : GiteaWebhookPayload) (u : String)
    (hact : eqFold p.action reviewRequestedAction = true) :
    shouldProcess p u = true ↔
      (u = "*"
        ∨ (∃ r ∈ p.pullRequest.requestedReviewers, eqFold r.username u = true)
        ∨ eqFold p.requestedReviewer.username u = true) := by
  unfold shouldProcess isOurUserRequested
  simp only [Bool.or_eq_true, List.any_eq_true, beq_iff_eq]
  constructor
  · rintro ((⟨r, hr, he⟩ | htop) | hstar)
    · exact Or.inr (Or.inl ⟨r, hr, he⟩)
    · exact Or.inr (Or.inr htop)
    · exact Or.inl hstar
  · rintro (hstar | ⟨r, hr, he⟩ | htop)
    · exact Or.inr hstar
    · exact Or.inl (Or.inl ⟨r, hr, he⟩)
    · exact Or.inl (Or.inr htop)

/-- Witness for C2 at a concrete accepted event: upper-case action,
configured name `bot` matching list entry `Bot` case-insensitively. -/
theorem claim_C2_event_filter_witness :
    shouldProcess
      { action := "REVIEW_REQUESTED"
      , pullRequest := { number := 7, title := "Fix bug", requestedReviewers := [⟨"Bot"⟩] }
      , repositoryURL := "https://git.example/api/v1/repos/o/r"
      , requestedReviewer := ⟨""⟩ } "bot" = true :=
  (claim_C2_event_filter _ _ (by decide)).mpr
    (Or.inr (Or.inl ⟨⟨"Bot"⟩, by decide, by decide⟩))

/-- C6: an event whose action does not case-insensitively equal
review_requested is acknowledged with HTTP 200 and causes no outbound
calls. -/
theorem claim_C6_reject_other_actions (cfg : ParrotConfig) (p : GiteaWebhookPayload)
    (env : PipelineEnv) (h : eqFold p.action reviewRequestedAction = false) :
    handleWebhook cfg p env = HandlerOutcome.response 200 [] := by
  unfold handleWebhook
  rw [h]
  rfl

/-- Witness for C6 at a concrete event with action `opened`. -/
theorem claim_C6_reject_other_actions_witness :
    handleWebhook
      { giteaToken := "gt", llmEndpoint := "https://llm.example/v1/chat"
      , llmToken := "lt", systemPrompt := "", userPrompt := "%s %s %s"
      , insecureSkipVerify := false, port := 8080, llmTimeout := 90
      , giteaUsername := "*", model := "gemini-2.5-pro", temperature := 7 / 10 }
      { action := "opened"
      , pullRequest := { number := 1, title := "T", requestedReviewers := [] }
      , repositoryURL := "https://git.example/api/v1/repos/o/r"
      , requestedReviewer := ⟨""⟩ }
      { metaResp := none, diffResp := none, llmResp := none, postResp := none }
      = HandlerOutcome.response 200 [] :=
  claim_C6_reject_other_actions _ _ _ (by decide)

/-- C9: with the configured username left at its default empty string and a
payload whose top-level requested-reviewer field deserialized to the empty
username, the filter accepts even though the name is neither `*` nor in the
per-PR list. -/
theorem claim_C9_empty_username_accepts (p : GiteaWebhookPayload)
    (h1 : p.requestedReviewer.username = "")
    (h2 : ∀ r ∈ p.pullRequest.requestedReviewers,
      eqFold r.username (loadedGiteaUsername none) = false) :
    loadedGiteaUsername none ≠ "*" ∧ shouldProcess p (loadedGiteaUsername none) = true := by
  refine ⟨by decide, ?_⟩
  unfold shouldProcess isOurUserRequested
  have htop : eqFold p.requestedReviewer.username (loadedGiteaUsername none) = true := by
    rw [h1]; decide
  simp [htop]

/-- Witness for C9 at a concrete payload whose reviewer list holds only
`alice`. -/
theorem claim_C9_empty_username_accepts_witness :
    loadedGiteaUsername none ≠ "*" ∧
      shouldProcess
        { action := "review_requested"
        , pullRequest := { number := 2, title := "T", requestedReviewers := [⟨"alice"⟩] }
        , repositoryURL := "https://git.example/api/v1/repos/o/r"
        , requestedReviewer := ⟨""⟩ } (loadedGiteaUsername none) = true :=
  claim_C9_empty_username_accepts _ rfl (by decide)

/-- C10: the literal completion `null` passes Stage-1 direct decode and
normalizes to the zero verdict: empty body, no comments, empty event. -/
theorem claim_C10_null_completion :
    decodeReviewChars ("null".data) = some ⟨[], [], []⟩
      ∧ normalizeCompletion ("null".data) = NormResult.ok ⟨[], [], []⟩ := by
  decide

/-- C5: the composed LLM request carries temperature 0.7 for every
configuration and PR context, so a configuration that sets sampling
temperature 0.2 is not honored. -/
theorem claim_C5_temperature_hardcoded :
    (∀ cfg pr, (buildLLMRequest cfg pr).temperature = 7 / 10)
      ∧ (buildLLMRequest
          { giteaToken := "gt", llmEndpoint := "https://llm.example/v1/chat"
          , llmToken := "lt", systemPrompt := "", userPrompt := "%s %s %s"
          , insecureSkipVerify := false, port := 8080, llmTimeout := 90
          , giteaUsername := "*", model := "gemini-2.5-pro", temperature := 1 / 5 }
          { title := "T", description := "D", diff := "+x" }).temperature ≠ 1 / 5 := by
  refine ⟨fun cfg pr => rfl, ?_⟩
  norm_num [buildLLMRequest]

set_option maxRecDepth 40000 in
/-- C4: the schema attached to every LLM request declares `body` and
`event` as strings and a `comments` array whose element declares exactly
the fields body, new_position and path; `old_position` is absent from the
element. -/
theorem claim_C4_schema_shape :
    (∀ cfg pr, (buildLLMRequest cfg pr).format.schema = llmFormatSchema)
      ∧ (parseTop llmFormatSchema.data).map objKeys = some [bodyKey, commentsKey, eventKey]
      ∧ ((parseTop llmFormatSchema.data).bind (jlookup bodyKey)).map jkind = some 3
      ∧ ((parseTop llmFormatSchema.data).bind (jlookup eventKey)).map jkind = some 3
      ∧ commentElemKeys llmFormatSchema.data = some [bodyKey, newPosKey, pathKey]
      ∧ [bodyKey, newPosKey, pathKey].contains oldPosKey = false := by
  refine ⟨fun cfg pr => rfl, ?_, ?_, ?_, ?_, ?_⟩ <;> decide

/-- C8: publishing wraps the verdict body in the fixed banner regardless of
the decision tag, and marshals the comments and event fields unchanged. -/
theorem claim_C8_banner_wrap (r : GiteaReviewResponse) :
    jlookup bodyKey (encodeReview (postCommentPayload r))
        = some (JVal.jstr (reviewBannerWrap r.body))
      ∧ jlookup commentsKey (encodeReview (postCommentPayload r))
        = some (JVal.jarr (r.comments.map encodeComment))
      ∧ jlookup eventKey (encodeReview (postCommentPayload r))
        = some (JVal.jstr r.reviewState) := by
  refine ⟨rfl, ?_, ?_⟩ <;> rfl

/-- Whether a JSON object key selects one of the three declared fields of
`GiteaReviewResponse`. -/
def isKnownReviewKey (k : List Char) : Bool :=
  keyIs k bodyKey || keyIs k commentsKey || keyIs k eventKey

/-- Invariant: folding comment members none of which selects
`old_position` never changes the old-position accumulator. -/
lemma foldComment_old_invariant (fs : List (List Char × JVal)) :
    ∀ acc c, (∀ kv ∈ fs, keyIs kv.1 oldPosKey = false) →
      foldCommentFields acc fs = some c →
      c.commentPositionOld = acc.commentPositionOld := by
  induction fs with
  | nil =>
    intro acc c _ h
    simp only [foldCommentFields, Option.some.injEq] at h
    rw [← h]
  | cons kv rest ih =>
    intro acc c hmem h
    obtain ⟨k, v⟩ := kv
    have hk : keyIs k oldPosKey = false := hmem (k, v) (List.mem_cons_self _ _)
    have hrest : ∀ kv ∈ rest, keyIs kv.1 oldPosKey = false :=
      fun kv hkv => hmem kv (List.mem_cons_of_mem _ hkv)
    simp only [foldCommentFields] at h
    by_cases h1 : keyIs k bodyKey
    · rw [if_pos h1] at h
      cases hd : decodeStrField v acc.body with
      | none => rw [hd] at h; simp at h
      | some s =>
        rw [hd] at h
        have h' : foldCommentFields { acc with body := s } rest = some c := h
        exact ih { acc with body := s } c hrest h'
    · rw [if_neg h1] at h
      by_cases h2 : keyIs k newPosKey
      · rw [if_pos h2] at h
        cases hd : decodeIntField v acc.commentPositionNew with
        | none => rw [hd] at h; simp at h
        | some n =>
          rw [hd] at h
          have h' : foldCommentFields { acc with commentPositionNew := n } rest = some c := h
          exact ih { acc with commentPositionNew := n } c hrest h'
      · rw [if_neg h2] at h
        rw [if_neg (by simp [hk])] at h
        by_cases h4 : keyIs k pathKey
        · rw [if_pos h4] at h
          cases hd : decodeStrField v acc.path with
          | none => rw [hd] at h; simp at h
          | some s =>
            rw [hd] at h
            have h' : foldCommentFields { acc with path := s } rest = some c := h
            exact ih { acc with path := s } c hrest h'
        · rw [if_neg h4] at h
          exact ih _ _ hrest h

/-- Folding review members ignores every member whose key selects none of
the declared fields. -/
lemma foldReview_filter_unknown (fs : List (List Char × JVal)) :
    ∀ acc, foldReviewFields acc fs
      = foldReviewFields acc (fs.filter (fun kv => isKnownReviewKey kv.1)) := by
  induction fs with
  | nil => intro acc; rfl
  | cons kv rest ih =>
    intro acc
    obtain ⟨k, v⟩ := kv
    by_cases h1 : keyIs k bodyKey
    · have hknown : isKnownReviewKey k = true := by simp [isKnownReviewKey, h1]
      simp only [List.filter_cons, hknown, if_pos]
      simp only [foldReviewFields, if_pos h1]
      cases decodeStrField v acc.body with
      | none => rfl
      | some s => exact ih _
    · by_cases h2 : keyIs k commentsKey
      · have hknown : isKnownReviewKey k = true := by simp [isKnownReviewKey, h2]
        simp only [List.filter_cons, hknown, if_pos]
        simp only [foldReviewFields, if_neg h1, if_pos h2]
        cases decodeCommentsField v acc.comments with
        | none => rfl
        | some xs => exact ih _
      · by_cases h3 : keyIs k eventKey
        · have hknown : isKnownReviewKey k = true := by simp [isKnownReviewKey, h3]
          simp only [List.filter_cons, hknown, if_pos]
          simp only [foldReviewFields, if_neg h1, if_neg h2, if_pos h3]
          cases decodeStrField v acc.reviewState with
          | none => rfl
          | some s => exact ih _
        · have hunknown : isKnownReviewKey k = false := by
            simp [isKnownReviewKey, h1, h2, h3]
          simp only [List.filter_cons, hunknown]
          simp only [foldReviewFields, if_neg h1, if_neg h2, if_neg h3]
          exact ih _

/-- C7: the decoder shared by both normalization stages tolerates an
absent `old_position` (the comment keeps old-position zero), ignores
members with unknown keys, and accepts an empty `comments` array as a
successful verdict with no inline comments. -/
theorem claim_C7_tolerant_decoding :
    (∀ fs c, (∀ kv ∈ fs, keyIs kv.1 oldPosKey = false) →
        foldCommentFields zeroComment fs = some c → c.commentPositionOld = 0)
      ∧ (∀ fs, foldReviewFields zeroReview fs
          = foldReviewFields zeroReview (fs.filter (fun kv => isKnownReviewKey kv.1)))
      ∧ (∀ b e, decodeReviewVal (JVal.jobj
            [(bodyKey, JVal.jstr b), (commentsKey, JVal.jarr []), (eventKey, JVal.jstr e)])
          = some ⟨b, [], e⟩) := by
  refine ⟨?_, ?_, ?_⟩
  · intro fs c hmem h
    exact foldComment_old_invariant fs zeroComment c hmem h
  · intro fs
    exact foldReview_filter_unknown fs zeroReview
  · intro b e
    rfl

/-- Witness for C7 at concrete inputs: a comment object without
`old_position`, a review object with an unknown `zzz` member, and an empty
comments array. -/
theorem claim_C7_tolerant_decoding_witness :
    (⟨"hi".data, 0, 0, []⟩ : GiteaComment).commentPositionOld = 0
      ∧ foldReviewFields zeroReview
          [(bodyKey, JVal.jstr ("x".data)), ("zzz".data, JVal.jbool true)]
        = foldReviewFields zeroReview
          ([(bodyKey, JVal.jstr ("x".data)), ("zzz".data, JVal.jbool true)].filter
            (fun kv => isKnownReviewKey kv.1))
      ∧ decodeReviewVal (JVal.jobj
          [(bodyKey, JVal.jstr ("ok".data)), (commentsKey, JVal.jarr []),
           (eventKey, JVal.jstr ("APPROVED".data))])
        = some ⟨"ok".data, [], "APPROVED".data⟩ :=
  ⟨claim_C7_tolerant_decoding.1 [(bodyKey, JVal.jstr ("hi".data))] ⟨"hi".data, 0, 0, []⟩
      (by decide) (by decide),
   claim_C7_tolerant_decoding.2.1 [(bodyKey, JVal.jstr ("x".data)), ("zzz".data, JVal.jbool true)],
   claim_C7_tolerant_decoding.2.2 ("ok".data) ("APPROVED".data)⟩

/-- Concrete character list of the capture-group anchor pattern. -/
lemma bodyAnchorPat_chars : bodyAnchorPat = ['"', 'b', 'o', 'd', 'y', '"', ':'] := by decide

/-- A successful case-insensitive take splits its input into the consumed
characters and the remainder. -/
lemma takeCi_sub : ∀ pat cs tk r : List Char,
    takeCi pat cs = some (tk, r) → cs = tk ++ r := by
  intro pat
  induction pat with
  | nil =>
    intro cs tk r h
    simp only [takeCi, Option.some.injEq, Prod.mk.injEq] at h
    rw [← h.1, ← h.2]
    rfl
  | cons p ps ih =>
    intro cs tk r h
    cases cs with
    | nil => simp [takeCi] at h
    | cons c cs' =>
      simp only [takeCi] at h
      split at h
      · cases ht : takeCi ps cs' with
        | none => rw [ht] at h; simp at h
        | some q =>
          obtain ⟨q1, q2⟩ := q
          rw [ht] at h
          simp only [Option.map_some', Option.some.injEq, Prod.mk.injEq] at h
          obtain ⟨h1, h2⟩ := h
          rw [← h1, ← h2, List.cons_append]
          rw [ih cs' q1 q2 ht]
      · simp at h

/-- A successful case-insensitive take still succeeds, with the same
consumed characters, after appending to the input. -/
lemma takeCi_extend : ∀ pat cs tk r u : List Char,
    takeCi pat cs = some (tk, r) → takeCi pat (cs ++ u) = some (tk, r ++ u) := by
  intro pat
  induction pat with
  | nil =>
    intro cs tk r u h
    simp only [takeCi, Option.some.injEq, Prod.mk.injEq] at h
    simp only [takeCi, Option.some.injEq, Prod.mk.injEq]
    exact ⟨h.1, by rw [← h.2]⟩
  | cons p ps ih =>
    intro cs tk r u h
    cases cs with
    | nil => simp [takeCi] at h
    | cons c cs' =>
      simp only [takeCi] at h
      split at h
      case isTrue hc =>
        cases ht : takeCi ps cs' with
        | none => rw [ht] at h; simp at h
        | some q =>
          obtain ⟨q1, q2⟩ := q
          rw [ht] at h
          simp only [Option.map_some', Option.some.injEq, Prod.mk.injEq] at h
          obtain ⟨h1, h2⟩ := h
          simp only [List.cons_append, takeCi, if_pos hc, List.append_eq]
          rw [ih cs' q1 q2 u ht]
          simp [h1, h2]
      · simp at h

/-- The consumed characters of a case-insensitive take match the pattern
character by character. -/
lemma takeCi_fold : ∀ pat cs tk r : List Char,
    takeCi pat cs = some (tk, r) →
      List.Forall₂ (fun p c => ciEqChar p c = true) pat tk := by
  intro pat
  induction pat with
  | nil =>
    intro cs tk r h
    simp only [takeCi, Option.some.injEq, Prod.mk.injEq] at h
    rw [← h.1]
    exact List.Forall₂.nil
  | cons p ps ih =>
    intro cs tk r h
    cases cs with
    | nil => simp [takeCi] at h
    | cons c cs' =>
      simp only [takeCi] at h
      split at h
      case isTrue hc =>
        cases ht : takeCi ps cs' with
        | none => rw [ht] at h; simp at h
        | some q =>
          obtain ⟨q1, q2⟩ := q
          rw [ht] at h
          simp only [Option.map_some', Option.some.injEq, Prod.mk.injEq] at h
          rw [← h.1]
          exact List.Forall₂.cons hc (ih cs' q1 q2 ht)
      · simp at h

/-- Last elements of pointwise-related lists are related. -/
lemma forall2_getLast {R : Char → Char → Prop} :
    ∀ {p t : List Char}, List.Forall₂ R p t → ∀ a, p.getLast? = some a →
      ∃ b, t.getLast? = some b ∧ R a b := by
  intro p t h
  induction h with
  | nil => intro a ha; simp at ha
  | @cons p1 t1 ps ts hR hF ih =>
    intro a ha
    cases ps with
    | nil =>
      cases hF
      simp only [List.getLast?_singleton, Option.some.injEq] at ha
      exact ⟨t1, by simp, by rw [← ha]; exact hR⟩
    | cons p2 ps' =>
      cases hF with
      | cons hR2 hF2 =>
        rw [List.getLast?_cons_cons] at ha
        obtain ⟨b, hb, hRb⟩ := ih a ha
        exact ⟨b, by rw [List.getLast?_cons_cons]; exact hb, hRb⟩

/-- Only the colon itself is case-insensitively equal to a colon. -/
lemma ciEqChar_colon (b : Char) (h : ciEqChar ':' b = true) : b = ':' := by
  unfold ciEqChar lowerAsciiNat at h
  rw [beq_iff_eq] at h
  have h58 : (':' : Char).toNat = 58 := by decide
  rw [h58] at h
  rw [if_neg (by omega)] at h
  by_cases hb : 65 ≤ b.toNat ∧ b.toNat ≤ 90
  · rw [if_pos hb] at h
    omega
  · rw [if_neg hb] at h
    have : b.toNat = (':' : Char).toNat := by omega
    exact Char.ext (UInt32.ext this)

/-- Splitting on a predicate commutes with appending when the first part
is not exhausted by the predicate. -/
lemma wsSplit_append (p : Char → Bool) (t u : List Char) (h : t.dropWhile p ≠ []) :
    (t ++ u).takeWhile p = t.takeWhile p
      ∧ (t ++ u).dropWhile p = t.dropWhile p ++ u := by
  induction t with
  | nil => simp [List.dropWhile] at h
  | cons c t' ih =>
    by_cases hc : p c
    · have h' : t'.dropWhile p ≠ [] := by
        simpa [List.dropWhile_cons, hc] using h
      obtain ⟨h1, h2⟩ := ih h'
      refine ⟨?_, ?_⟩
      · simp [List.takeWhile_cons, hc, h1]
      · simp [List.dropWhile_cons, hc, h2]
    · refine ⟨?_, ?_⟩
      · simp [List.takeWhile_cons, hc]
      · simp [List.dropWhile_cons, hc]

/-- Successful anchor matches decompose the input. -/
lemma matchAnchor_some (s a r : List Char) (h : matchAnchor s = some (a, r)) :
    ∃ t q1, s = lbrace :: t
      ∧ takeCi bodyAnchorPat (t.dropWhile isWsRe) = some (q1, r)
      ∧ a = lbrace :: (t.takeWhile isWsRe ++ q1) := by
  cases s with
  | nil => simp [matchAnchor] at h
  | cons c t =>
    simp only [matchAnchor] at h
    split at h
    case isTrue hc =>
      cases htk : takeCi bodyAnchorPat (t.dropWhile isWsRe) with
      | none => rw [htk] at h; simp at h
      | some q =>
        obtain ⟨q1, q2⟩ := q
        rw [htk] at h
        simp only [Option.map_some', Option.some.injEq, Prod.mk.injEq] at h
        obtain ⟨h1, h2⟩ := h
        subst hc
        exact ⟨t, q1, rfl, by rw [h2] at htk; exact htk, h1.symm⟩
    case isFalse => simp at h

/-- The anchor consumed plus the remainder reassemble the input. -/
lemma matchAnchor_sub (s a r : List Char) (h : matchAnchor s = some (a, r)) :
    s = a ++ r := by
  obtain ⟨t, q1, hs, htk, ha⟩ := matchAnchor_some s a r h
  have hsplit := takeCi_sub _ _ _ _ htk
  rw [hs, ha]
  simp only [List.cons_append, List.cons.injEq, true_and]
  rw [List.append_assoc, ← hsplit, List.takeWhile_append_dropWhile]

/-- A successful anchor match extends along an appended tail. -/
lemma matchAnchor_extend (s u a r : List Char) (h : matchAnchor s = some (a, r)) :
    matchAnchor (s ++ u) = some (a, r ++ u) := by
  obtain ⟨t, q1, hs, htk, ha⟩ := matchAnchor_some s a r h
  have hne : t.dropWhile isWsRe ≠ [] := by
    intro hnil
    rw [hnil, bodyAnchorPat_chars] at htk
    simp [takeCi] at htk
  obtain ⟨hT, hD⟩ := wsSplit_append isWsRe t u hne
  subst hs
  simp only [List.cons_append, matchAnchor, if_pos rfl]
  rw [hD, takeCi_extend _ _ _ _ u htk]
  simp [hT, ha]

/-- When the leftmost-anchor scan fails, no suffix carries an anchor. -/
lemma scanAnchor_eq_none : ∀ s : List Char, scanAnchor s = none →
    ∀ t, t <:+ s → matchAnchor t = none := by
  intro s
  induction s with
  | nil =>
    intro _ t ht
    rw [List.suffix_nil.mp ht]
    rfl
  | cons c cs ih =>
    intro h t ht
    have hsplit : matchAnchor (c :: cs) = none ∧ scanAnchor cs = none := by
      simp only [scanAnchor] at h
      cases hm : matchAnchor (c :: cs) with
      | some q => rw [hm] at h; simp at h
      | none => rw [hm] at h; exact ⟨rfl, h⟩
    rcases List.suffix_cons_iff.mp ht with hEq | hSuf
    · rw [hEq]; exact hsplit.1
    · exact ih hsplit.2 t hSuf

/-- The position-zero fence attempt cannot capture when no suffix of the
whole input carries an anchor. -/
lemma specialTail_none (rest w : List Char) (hsub : rest <:+ w)
    (hall : ∀ t, t <:+ w → matchAnchor t = none) : specialTail rest = none := by
  unfold specialTail
  have h1 : fenceTagSkip rest <:+ w := by
    unfold fenceTagSkip
    cases htk : takeCi ("json".data) rest with
    | none => exact hsub
    | some q =>
      obtain ⟨q1, q2⟩ := q
      have hq : rest = q1 ++ q2 := takeCi_sub _ _ _ _ htk
      exact List.IsSuffix.trans ⟨q1, hq.symm⟩ hsub
  have h2 : dropWsRe (fenceTagSkip rest) <:+ w :=
    List.IsSuffix.trans (List.dropWhile_suffix _) h1
  rw [hall _ h2]

/-- C3: a raw completion that fails Stage-1 direct decode and contains no
`"body":`-anchored object is answered by the extraction error of
`llmRespCleanup`; normalization neither crashes nor produces a verdict. -/
theorem claim_C3_no_anchor_extraction_error (s : List Char)
    (h1 : decodeReviewChars s = none) (h2 : hasBodyAnchor s = false) :
    normalizeCompletion s = NormResult.err NormError.extraction := by
  have hscan : scanAnchor s = none := by
    unfold hasBodyAnchor at h2
    cases hsc : scanAnchor s with
    | none => rfl
    | some q => rw [hsc] at h2; simp at h2
  have hall : ∀ t, t <:+ s → matchAnchor t = none := scanAnchor_eq_none s hscan
  have hcap : jsonRespRegexCapture s = none := by
    unfold jsonRespRegexCapture
    have hgen : generalCapture s = none := by
      unfold generalCapture
      rw [hscan]
    have hspec : specialCapture s = none := by
      cases s with
      | nil => rfl
      | cons c1 s1 =>
        cases s1 with
        | nil => rfl
        | cons c2 s2 =>
          cases s2 with
          | nil => rfl
          | cons c3 rest =>
            have hred : specialCapture (c1 :: c2 :: c3 :: rest)
                = if c1 = tick ∧ c2 = tick ∧ c3 = tick then specialTail rest else none := rfl
            rw [hred]
            split
            · exact specialTail_none rest _ ⟨[c1, c2, c3], rfl⟩ hall
            · rfl
    rw [hspec, hgen]
  unfold normalizeCompletion
  rw [h1]
  unfold llmRespCleanup
  rw [hcap]

/-- Witness for C3 at the specification's example completion. -/
theorem claim_C3_no_anchor_extraction_error_witness :
    normalizeCompletion ("Looks fine to me".data) = NormResult.err NormError.extraction :=
  claim_C3_no_anchor_extraction_error _ (by decide) (by decide)

/-- When the anchored input ends with a closing brace, the part after the
anchor is nonempty and also ends with that closing brace (the anchor itself
ends with a colon). -/
lemma anchorRemainder_last (s a r : List Char) (hA : matchAnchor s = some (a, r))
    (hL : s.getLast? = some rbrace) : r.getLast? = some rbrace := by
  obtain ⟨t, q1, hs, htk, ha⟩ := matchAnchor_some s a r hA
  have hq1 : q1.getLast? = some ':' := by
    have hF := takeCi_fold _ _ _ _ htk
    have hpl : bodyAnchorPat.getLast? = some ':' := by rw [bodyAnchorPat_chars]; rfl
    obtain ⟨b, hb, hRb⟩ := forall2_getLast hF ':' hpl
    rw [ciEqChar_colon b hRb] at hb
    exact hb
  have hq1ne : q1 ≠ [] := by
    intro h0
    rw [h0] at hq1
    simp at hq1
  have haLast : a.getLast? = some ':' := by
    rw [ha, show lbrace :: (t.takeWhile isWsRe ++ q1)
        = (lbrace :: t.takeWhile isWsRe) ++ q1 from by simp]
    rw [List.getLast?_append_of_ne_nil _ hq1ne]
    exact hq1
  have hrne : r ≠ [] := by
    intro h0
    have hsa : s = a := by rw [matchAnchor_sub s a r hA, h0, List.append_nil]
    rw [hsa, haLast] at hL
    exact absurd hL (by decide)
  rw [matchAnchor_sub s a r hA, List.getLast?_append_of_ne_nil _ hrne] at hL
  exact hL

/-- Truncation after the last closing brace recovers exactly the object
text when the appended closing fence contains no closing brace. -/
lemma truncThroughLastBrace_fence (r : List Char) (h : r.getLast? = some rbrace) :
    truncThroughLastBrace (r ++ "\n```".data) = some r := by
  have hrev : r.reverse.head? = some rbrace := by rw [List.head?_reverse]; exact h
  obtain ⟨r', hr'⟩ : ∃ r', r.reverse = rbrace :: r' := by
    cases hc : r.reverse with
    | nil => rw [hc] at hrev; simp at hrev
    | cons x xs =>
      rw [hc] at hrev
      simp only [List.head?_cons, Option.some.injEq] at hrev
      exact ⟨xs, by rw [hrev]⟩
  unfold truncThroughLastBrace
  rw [List.reverse_append,
    show ("\n```".data).reverse = [tick, tick, tick, '\n'] from by decide, hr']
  rw [show ([tick, tick, tick, '\n'] ++ rbrace :: r')
      = tick :: tick :: tick :: '\n' :: rbrace :: r' from rfl]
  rw [List.dropWhile_cons, if_pos (by decide)]
  rw [List.dropWhile_cons, if_pos (by decide)]
  rw [List.dropWhile_cons, if_pos (by decide)]
  rw [List.dropWhile_cons, if_pos (by decide)]
  rw [List.dropWhile_cons, if_neg (by decide)]
  show some (rbrace :: r').reverse = some r
  rw [← hr', List.reverse_reverse]

/-- On a fence-wrapped object text whose body starts with the anchor and
ends with a closing brace, the regex capture recovers exactly the object
text: the position-zero attempt consumes the fence and the `json` tag, the
newline as `[\s]*`, anchors at the object's opening brace, and the greedy
tail stops at the object's final brace because the closing fence holds no
brace. -/
lemma jsonRespRegexCapture_fenceWrap (s a r : List Char)
    (hA : matchAnchor s = some (a, r)) (hL : s.getLast? = some rbrace) :
    jsonRespRegexCapture (fenceWrap s) = some s := by
  obtain ⟨t, q1, hs, htk, ha⟩ := matchAnchor_some s a r hA
  have hw : fenceWrap s
      = tick :: tick :: tick :: 'j' :: 's' :: 'o' :: 'n' :: '\n' :: (s ++ "\n```".data) := by
    unfold fenceWrap
    rw [show "```json\n".data = [tick, tick, tick, 'j', 's', 'o', 'n', '\n'] from by decide]
    simp [List.cons_append, List.append_assoc]
  have hsc : specialCapture (fenceWrap s) = some s := by
    rw [hw]
    rw [show specialCapture
          (tick :: tick :: tick :: 'j' :: 's' :: 'o' :: 'n' :: '\n' :: (s ++ "\n```".data))
        = if tick = tick ∧ tick = tick ∧ tick = tick then
            specialTail ('j' :: 's' :: 'o' :: 'n' :: '\n' :: (s ++ "\n```".data))
          else none from rfl]
    rw [if_pos ⟨rfl, rfl, rfl⟩]
    unfold specialTail
    have htag : fenceTagSkip ('j' :: 's' :: 'o' :: 'n' :: '\n' :: (s ++ "\n```".data))
        = '\n' :: (s ++ "\n```".data) := rfl
    rw [htag]
    have hdrop : dropWsRe ('\n' :: (s ++ "\n```".data)) = s ++ "\n```".data := by
      unfold dropWsRe
      rw [List.dropWhile_cons, if_pos (by decide)]
      rw [hs, List.cons_append, List.dropWhile_cons, if_neg (by decide)]
    rw [hdrop]
    rw [matchAnchor_extend s _ a r hA]
    have hfin : Option.map (fun tl => a ++ tl)
        (truncThroughLastBrace (r ++ "\n```".data)) = some s := by
      rw [truncThroughLastBrace_fence r (anchorRemainder_last s a r hA hL)]
      simp only [Option.map_some']
      rw [← matchAnchor_sub s a r hA]
    exact hfin
  unfold jsonRespRegexCapture
  rw [hsc]

/-- C1 (amended): for every object text accepted by Stage-1 whose literal
form opens with the brace-whitespace-`"body":` anchor and closes with a
final brace, Stage-2 extraction of the fence-wrapped text recovers the
identical verdict. -/
theorem claim_C1_fence_round_trip (s : List Char) (v : GiteaReviewResponse)
    (h1 : decodeReviewChars s = some v)
    (h2 : (matchAnchor s).isSome = true)
    (h3 : s.getLast? = some rbrace) :
    llmRespCleanup (fenceWrap s) = NormResult.ok v := by
  obtain ⟨q, hq⟩ : ∃ q, matchAnchor s = some q := by
    cases hm : matchAnchor s with
    | none => rw [hm] at h2; simp at h2
    | some q => exact ⟨q, rfl⟩
  obtain ⟨a, r⟩ := q
  have hcap := jsonRespRegexCapture_fenceWrap s a r hq h3
  unfold llmRespCleanup
  rw [hcap]
  have hfin : (match decodeReviewChars s with
      | some rr => NormResult.ok rr
      | none => NormResult.err NormError.cleanedParse) = NormResult.ok v := by
    rw [h1]
  exact hfin

set_option maxRecDepth 40000 in
/-- Witness for C1 at the specification's example object. -/
theorem claim_C1_fence_round_trip_witness :
    llmRespCleanup
        (fenceWrap ("\x7b\"body\":\"ok\",\"comments\":[],\"event\":\"APPROVED\"\x7d".data))
      = NormResult.ok ⟨"ok".data, [], "APPROVED".data⟩ :=
  claim_C1_fence_round_trip _ _ (by decide) (by decide) (by decide)

set_option maxRecDepth 40000 in
/-- Counterexample to C1 as stated: an object text with the `event` member
first is accepted by Stage-1 direct decode, yet Stage-2 extraction of its
fence-wrapped form fails with the extraction error instead of recovering
the same verdict, because the capture group requires `"body":` directly
after the opening brace. -/
theorem claim_C1_counterexample :
    decodeReviewChars ("\x7b\"event\":\"APPROVED\",\"body\":\"ok\",\"comments\":[]\x7d".data)
        = some ⟨"ok".data, [], "APPROVED".data⟩
      ∧ llmRespCleanup
          (fenceWrap ("\x7b\"event\":\"APPROVED\",\"body\":\"ok\",\"comments\":[]\x7d".data))
        = NormResult.err NormError.extraction := by
  constructor
  · decide
  · decide
